import Mathlib

/-!
# Shutdown protocols of a two-stage pipeline

A shallow embedding of the two Go programs `batching_sink.go` and
`stuck_source.go`.  Each program starts a source goroutine and a sink goroutine
connected by `c := make(chan int, 1)`, sleeps, calls `cancel()` and then waits
in `wg.Wait()`.

Each program is embedded as a labelled transition system.  A state records the
cancellation flag of `ctx`, the single buffer slot of `c`, the closed flag of
`c`, the program point and the locals of each goroutine, the lines printed by
the sink's `log.Print(n, "<-")`, whether the process has panicked and whether
`wg.Wait()` has returned.  A label names one atomic action of one thread; the
function `next` gives the effect of a label, `none` meaning that the action is
not enabled (the thread is elsewhere, or it is blocked).  An execution is a
list of labels, replayed by `run`.

Channel semantics follow the Go language: a send blocks while the buffer is
full and panics on a closed channel; a receive takes the buffered value if
there is one, yields the zero value with `ok = false` on a closed and empty
channel, and blocks otherwise; closing a closed channel panics.

The counter `n` of the source and the items in `c` have Go type `int`, taken
64 bits wide: they are embedded as integers, and `n += 1` wraps around in two's
complement (`wrapInt`), from `9223372036854775807` to `-9223372036854775808`.
-/

/-- Two's complement wrap-around of a Go `int` of 64 bits. -/
def wrapInt (x : Int) : Int :=
  (x + 9223372036854775808) % 18446744073709551616 - 9223372036854775808

/-- The value of a counter that starts at 0 after `k` executions of `n += 1`. -/
def counterAt : Nat → Int
  | 0 => 0
  | k + 1 => wrapInt (counterAt k + 1)

/-- Program points of the source goroutine (identical in both programs):
`poll` is the `select` with `default`, `push` is `c <- n`, `close` is
`close(c)`, `ret` is the `return` after the close, `done` is after
`wg.Done()`. -/
inductive SrcPc where
  | poll
  | push
  | close
  | ret
  | done
deriving DecidableEq, Repr

namespace BatchingSink

/-- Program points of the sink of `batching_sink.go`: `poll` is the outer
`select` with `default`, `pop` is `n, ok := <-c` inside the batch, `work` is
the logging and sleeping after a successful receive, `ret` is the `return` of
the cancellation case, `done` is after `wg.Done()`. -/
inductive SnkPc where
  | poll
  | pop
  | work
  | ret
  | done
deriving DecidableEq, Repr

/-- Atomic actions of `batching_sink.go`. -/
inductive Label where
  | cancel
  | srcPoll
  | srcPush
  | srcClose
  | srcReturn
  | snkPoll
  | snkPop
  | snkWork
  | snkReturn
  | join
deriving DecidableEq, Repr

/-- Global state of `batching_sink.go`. -/
structure State where
  /-- Whether `cancel()` has been called, that is `ctx.Done()` is closed. -/
  cancelled : Bool
  /-- The buffer slot of `c`. -/
  buf : Option Int
  /-- Whether `c` has been closed. -/
  closed : Bool
  /-- Whether a goroutine has panicked. -/
  panicked : Bool
  /-- Program point of the source. -/
  srcPc : SrcPc
  /-- The local `n` of the source. -/
  srcN : Int
  /-- Program point of the sink. -/
  snkPc : SnkPc
  /-- The batch counter `i` of the sink. -/
  i : Nat
  /-- The local `n` of the sink. -/
  snkN : Int
  /-- The values printed by `log.Print(n, "<-")`, oldest first. -/
  processed : List Int
  /-- Whether `wg.Wait()` has returned. -/
  joined : Bool
deriving DecidableEq, Repr

/-- The state after `main` has started both goroutines. -/
def init : State :=
  { cancelled := false, buf := none, closed := false, panicked := false,
    srcPc := .poll, srcN := 0, snkPc := .poll, i := 0, snkN := 0,
    processed := [], joined := false }

/-- The batch size, the bound of `for i := 0; i < 5; i++`. -/
def batch : Nat := 5

/-- Effect of one atomic action when the process has not panicked. -/
def act (s : State) : Label → Option State
  | .cancel =>
    if s.cancelled = false then some { s with cancelled := true } else none
  | .srcPoll =>
    if s.srcPc = .poll then
      some { s with srcPc := if s.cancelled then .close else .push }
    else none
  | .srcPush =>
    if s.srcPc = .push then
      if s.closed then some { s with panicked := true }
      else match s.buf with
        | none =>
          some { s with buf := some s.srcN, srcN := wrapInt (s.srcN + 1), srcPc := .poll }
        | some _ => none
    else none
  | .srcClose =>
    if s.srcPc = .close then
      if s.closed then some { s with panicked := true }
      else some { s with closed := true, srcPc := .ret }
    else none
  | .srcReturn =>
    if s.srcPc = .ret then some { s with srcPc := .done } else none
  | .snkPoll =>
    if s.snkPc = .poll then
      if s.cancelled then some { s with snkPc := .ret }
      else some { s with i := 0, snkPc := if 0 < batch then .pop else .poll }
    else none
  | .snkPop =>
    if s.snkPc = .pop then
      match s.buf with
      | some v => some { s with buf := none, snkN := v, snkPc := .work }
      | none => if s.closed then some { s with snkPc := .poll } else none
    else none
  | .snkWork =>
    if s.snkPc = .work then
      some { s with processed := s.processed ++ [s.snkN], i := s.i + 1,
                    snkPc := if s.i + 1 < batch then .pop else .poll }
    else none
  | .snkReturn =>
    if s.snkPc = .ret then some { s with snkPc := .done } else none
  | .join =>
    if s.cancelled = true ∧ s.srcPc = .done ∧ s.snkPc = .done ∧ s.joined = false then
      some { s with joined := true }
    else none

/-- The transition function: a panicked process takes no further action. -/
def next (s : State) (l : Label) : Option State :=
  if s.panicked then none else act s l

/-- The program with the statement `close(c)` deleted from the source: the
cancellation case of the source goes straight to its `return`. -/
def nextNoClose (s : State) : Label → Option State
  | .srcPoll =>
    if s.panicked = false ∧ s.srcPc = .poll then
      some { s with srcPc := if s.cancelled then .ret else .push }
    else none
  | .srcClose => none
  | l => next s l

/-- Replay of a list of actions under a transition function. -/
def runWith (step : State → Label → Option State) (s : State) : List Label → Option State
  | [] => some s
  | l :: ls => (step s l).bind fun t => runWith step t ls

/-- Replay of a list of actions of the program. -/
def run (s : State) (ls : List Label) : Option State := runWith next s ls

/-- A state is reachable when some execution from `init` ends in it. -/
def Reachable (s : State) : Prop := ∃ ls, run init ls = some s

/-- Whether a label is an action of the source. -/
def Label.isSrc : Label → Bool
  | .srcPoll | .srcPush | .srcClose | .srcReturn => true
  | _ => false

/-- Whether a label is an action of the sink. -/
def Label.isSnk : Label → Bool
  | .snkPoll | .snkPop | .snkWork | .snkReturn => true
  | _ => false

/-- No action is enabled in the state under the given transition function. -/
def Stuck (step : State → Label → Option State) (s : State) : Prop :=
  ∀ l, step s l = none

/-- Number of values the sink has received so far: the printed ones and the one
it holds while at `work`. -/
def received (s : State) : Nat :=
  s.processed.length + (if s.snkPc = .work then 1 else 0)

/-- The inductive invariant of `batching_sink.go`. -/
def Inv (s : State) : Prop :=
  s.panicked = false ∧
  (s.closed = true ↔ (s.srcPc = .ret ∨ s.srcPc = .done)) ∧
  ((s.srcPc = .close ∨ s.srcPc = .ret ∨ s.srcPc = .done) → s.cancelled = true) ∧
  s.processed = (List.range s.processed.length).map counterAt ∧
  (s.snkPc = .work → s.snkN = counterAt s.processed.length) ∧
  (∀ v, s.buf = some v → v = counterAt (received s) ∧ s.srcN = counterAt (received s + 1)) ∧
  (s.buf = none → s.srcN = counterAt (received s))

/-- Number of values the source has put into `c` that the invariant accounts
for: those the sink has received and the one in the buffer. -/
def sent (s : State) : Nat :=
  received s + (if s.buf.isSome then 1 else 0)

/-- One full batch of the sink: the sink polls, then five times the source
polls and sends and the sink receives and works. -/
def batchRound : List Label :=
  [.snkPoll,
   .srcPoll, .srcPush, .snkPop, .snkWork,
   .srcPoll, .srcPush, .snkPop, .snkWork,
   .srcPoll, .srcPush, .snkPop, .snkWork,
   .srcPoll, .srcPush, .snkPop, .snkWork,
   .srcPoll, .srcPush, .snkPop, .snkWork]

/-- The execution made of `m` full batches. -/
def rounds : Nat → List Label
  | 0 => []
  | m + 1 => rounds m ++ batchRound

/-- An execution without `cancel()` in which the sink prints
`5 * 1844674407370955162 = 9223372036854775810` values, two more than there
are non-negative values of a 64-bit `int`. -/
def overflowRun : List Label := rounds 1844674407370955162

/-- Number of sends the source can still complete once cancellation has been
signalled: one if it is already past its poll, at `c <- n`, none otherwise. -/
def pushCredit (s : State) : Nat :=
  if s.panicked = false ∧ s.srcPc = .push then 1 else 0

/-- Number of times the source can still execute `close(c)`: one until it has
done so or has exited, none afterwards. -/
def closeCredit (s : State) : Nat :=
  if s.panicked = false ∧ (s.srcPc = .poll ∨ s.srcPc = .push ∨ s.srcPc = .close) then 1 else 0

/-- The source has taken its cancellation case. -/
def PastPoll (s : State) : Prop :=
  s.srcPc = .close ∨ s.srcPc = .ret ∨ s.srcPc = .done

/-- The actions left to the source once it has taken the cancellation case. -/
def srcTail : SrcPc → List Label
  | .close => [.srcClose, .srcReturn]
  | .ret => [.srcReturn]
  | _ => []

end BatchingSink

namespace StuckSource

/-- Program points of the sink of `stuck_source.go`: `sel` is the two-way
`select`, `drain` is the receive of `for range c`, `work` is the logging and
sleeping of the item case, `ret` is the `return` after the drain loop, `done`
is after `wg.Done()`. -/
inductive SnkPc where
  | sel
  | drain
  | work
  | ret
  | done
deriving DecidableEq, Repr

/-- Atomic actions of `stuck_source.go`.  The two cases of the sink's `select`
are separate labels: when both are ready either may be taken. -/
inductive Label where
  | cancel
  | srcPoll
  | srcPush
  | srcClose
  | srcReturn
  | snkSelDone
  | snkSelRecv
  | snkDrain
  | snkWork
  | snkReturn
  | join
deriving DecidableEq, Repr

/-- Global state of `stuck_source.go`. -/
structure State where
  /-- Whether `cancel()` has been called, that is `ctx.Done()` is closed. -/
  cancelled : Bool
  /-- The buffer slot of `c`. -/
  buf : Option Int
  /-- Whether `c` has been closed. -/
  closed : Bool
  /-- Whether a goroutine has panicked. -/
  panicked : Bool
  /-- Program point of the source. -/
  srcPc : SrcPc
  /-- The local `n` of the source. -/
  srcN : Int
  /-- Program point of the sink. -/
  snkPc : SnkPc
  /-- The local `n` of the sink's item case. -/
  snkN : Int
  /-- The values printed by `log.Print(n, "<-")`, oldest first. -/
  processed : List Int
  /-- Whether `wg.Wait()` has returned. -/
  joined : Bool
deriving DecidableEq, Repr

/-- The state after `main` has started both goroutines. -/
def init : State :=
  { cancelled := false, buf := none, closed := false, panicked := false,
    srcPc := .poll, srcN := 0, snkPc := .sel, snkN := 0,
    processed := [], joined := false }

/-- Effect of one atomic action when the process has not panicked. -/
def act (s : State) : Label → Option State
  | .cancel =>
    if s.cancelled = false then some { s with cancelled := true } else none
  | .srcPoll =>
    if s.srcPc = .poll then
      some { s with srcPc := if s.cancelled then .close else .push }
    else none
  | .srcPush =>
    if s.srcPc = .push then
      if s.closed then some { s with panicked := true }
      else match s.buf with
        | none =>
          some { s with buf := some s.srcN, srcN := wrapInt (s.srcN + 1), srcPc := .poll }
        | some _ => none
    else none
  | .srcClose =>
    if s.srcPc = .close then
      if s.closed then some { s with panicked := true }
      else some { s with closed := true, srcPc := .ret }
    else none
  | .srcReturn =>
    if s.srcPc = .ret then some { s with srcPc := .done } else none
  | .snkSelDone =>
    if s.snkPc = .sel ∧ s.cancelled = true then some { s with snkPc := .drain } else none
  | .snkSelRecv =>
    if s.snkPc = .sel then
      match s.buf with
      | some v => some { s with buf := none, snkN := v, snkPc := .work }
      | none => if s.closed then some { s with snkN := 0, snkPc := .work } else none
    else none
  | .snkDrain =>
    if s.snkPc = .drain then
      match s.buf with
      | some _ => some { s with buf := none }
      | none => if s.closed then some { s with snkPc := .ret } else none
    else none
  | .snkWork =>
    if s.snkPc = .work then
      some { s with processed := s.processed ++ [s.snkN], snkPc := .sel }
    else none
  | .snkReturn =>
    if s.snkPc = .ret then some { s with snkPc := .done } else none
  | .join =>
    if s.cancelled = true ∧ s.srcPc = .done ∧ s.snkPc = .done ∧ s.joined = false then
      some { s with joined := true }
    else none

/-- The transition function: a panicked process takes no further action. -/
def next (s : State) (l : Label) : Option State :=
  if s.panicked then none else act s l

/-- The program with the drain loop `for range c {}` deleted from the sink:
the cancellation case of the sink goes straight to its `return`. -/
def nextNoDrain (s : State) : Label → Option State
  | .snkSelDone =>
    if s.panicked = false ∧ s.snkPc = .sel ∧ s.cancelled = true then
      some { s with snkPc := .ret }
    else none
  | .snkDrain => none
  | l => next s l

/-- Replay of a list of actions under a transition function. -/
def runWith (step : State → Label → Option State) (s : State) : List Label → Option State
  | [] => some s
  | l :: ls => (step s l).bind fun t => runWith step t ls

/-- Replay of a list of actions of the program. -/
def run (s : State) (ls : List Label) : Option State := runWith next s ls

/-- A state is reachable when some execution from `init` ends in it. -/
def Reachable (s : State) : Prop := ∃ ls, run init ls = some s

/-- Whether a label is an action of the source. -/
def Label.isSrc : Label → Bool
  | .srcPoll | .srcPush | .srcClose | .srcReturn => true
  | _ => false

/-- Whether a label is an action of the sink. -/
def Label.isSnk : Label → Bool
  | .snkSelDone | .snkSelRecv | .snkDrain | .snkWork | .snkReturn => true
  | _ => false

/-- No action is enabled in the state under the given transition function. -/
def Stuck (step : State → Label → Option State) (s : State) : Prop :=
  ∀ l, step s l = none

/-- The inductive invariant of `stuck_source.go`. -/
def Inv (s : State) : Prop :=
  s.panicked = false ∧
  (s.closed = true ↔ (s.srcPc = .ret ∨ s.srcPc = .done)) ∧
  ((s.srcPc = .close ∨ s.srcPc = .ret ∨ s.srcPc = .done) → s.cancelled = true) ∧
  ((s.snkPc = .ret ∨ s.snkPc = .done) → s.closed = true ∧ s.buf = none)

/-- Number of sends the source can still complete once cancellation has been
signalled: one if it is already past its poll, at `c <- n`, none otherwise. -/
def pushCredit (s : State) : Nat :=
  if s.panicked = false ∧ s.srcPc = .push then 1 else 0

/-- Number of times the source can still execute `close(c)`: one until it has
done so or has exited, none afterwards. -/
def closeCredit (s : State) : Nat :=
  if s.panicked = false ∧ (s.srcPc = .poll ∨ s.srcPc = .push ∨ s.srcPc = .close) then 1 else 0

/-- The source has taken its cancellation case. -/
def PastPoll (s : State) : Prop :=
  s.srcPc = .close ∨ s.srcPc = .ret ∨ s.srcPc = .done

/-- The actions left to the source once it has taken the cancellation case. -/
def srcTail : SrcPc → List Label
  | .close => [.srcClose, .srcReturn]
  | .ret => [.srcReturn]
  | _ => []

end StuckSource

/-! ## The batching sink: invariant -/

namespace BatchingSink

theorem counterAt_zero : counterAt 0 = 0 := rfl

theorem counterAt_succ (k : Nat) : wrapInt (counterAt k + 1) = counterAt (k + 1) := rfl

theorem counterAt_eq_wrapInt (k : Nat) : counterAt k = wrapInt k := by
  induction k with
  | zero => decide
  | succ k ih =>
    rw [← counterAt_succ, ih]
    simp only [wrapInt]
    push_cast
    omega

theorem counterAt_small (k : Nat) (h : k < 9223372036854775808) : counterAt k = (k : Int) := by
  rw [counterAt_eq_wrapInt]
  simp only [wrapInt]
  omega

theorem wrapInt_overflow :
    wrapInt ((9223372036854775808 : Nat) : Int) = -9223372036854775808 := by
  decide

theorem counterAt_overflow : counterAt 9223372036854775808 = -9223372036854775808 := by
  rw [counterAt_eq_wrapInt]
  exact wrapInt_overflow

theorem bs_inv_init : Inv init := by
  simp [Inv, init, received, counterAt_zero]

theorem range_snoc_length (pr : List Int) (m : Int)
    (h : pr = (List.range pr.length).map counterAt) (hm : m = counterAt pr.length) :
    pr ++ [m] = (List.range (pr ++ [m]).length).map counterAt := by
  rw [List.length_append, List.length_singleton, List.range_succ, List.map_append,
    List.map_singleton, ← h, hm]

theorem bs_inv_next {s t : State} {l : Label} (h : Inv s) (hs : next s l = some t) : Inv t := by
  obtain ⟨c, b, cl, p, sp, n, kp, i, m, pr, j⟩ := s
  obtain ⟨hp, hc, hcan, hproc, hw, hb, hn⟩ := h
  dsimp only [received] at hp hc hcan hproc hw hb hn
  subst hp
  rcases b with _ | v <;> simp at hb hn <;> cases l <;>
    simp only [next, act, Bool.false_eq_true, if_false] at hs <;> split_ifs at hs
  all_goals simp only [Option.some.injEq] at hs
  all_goals subst hs
  all_goals refine ⟨?_, ?_, ?_, ?_, ?_, ?_, ?_⟩ <;> dsimp only [received]
  all_goals (try exact hproc)
  all_goals (try (exact range_snoc_length pr m hproc (hw (by assumption))))
  all_goals clear hproc
  all_goals (try (subst_vars; simp at hc; done))
  all_goals (try (subst_vars; simp; done))
  all_goals (try (subst_vars; simpa using hc))
  all_goals (try (subst_vars; simpa using hcan))
  all_goals (try (subst_vars; simpa using hw))
  all_goals (subst_vars; simp_all [counterAt_succ])

theorem bs_run_nil (s : State) : run s [] = some s := rfl

theorem bs_run_cons {s t : State} {l : Label} {ls : List Label} :
    run s (l :: ls) = some t ↔ ∃ u, next s l = some u ∧ run u ls = some t := by
  simp only [run, runWith]
  cases next s l <;> simp

theorem bs_run_append {s t : State} {xs ys : List Label} :
    run s (xs ++ ys) = some t ↔ ∃ u, run s xs = some u ∧ run u ys = some t := by
  induction xs generalizing s with
  | nil => simp [bs_run_nil]
  | cons x xs ih =>
    simp only [List.cons_append, bs_run_cons, ih]
    constructor
    · rintro ⟨u, hu, v, hv, hvt⟩
      exact ⟨v, ⟨u, hu, hv⟩, hvt⟩
    · rintro ⟨v, ⟨u, hu, hv⟩, hvt⟩
      exact ⟨u, hu, v, hv, hvt⟩

theorem bs_inv_run {s t : State} {ls : List Label} (h : Inv s) (hs : run s ls = some t) :
    Inv t := by
  induction ls generalizing s with
  | nil =>
    simp only [bs_run_nil, Option.some.injEq] at hs
    exact hs ▸ h
  | cons l ls ih =>
    obtain ⟨u, hu, hut⟩ := bs_run_cons.mp hs
    exact ih (bs_inv_next h hu) hut

theorem bs_inv_reachable {s : State} (h : Reachable s) : Inv s := by
  obtain ⟨ls, hls⟩ := h
  exact bs_inv_run bs_inv_init hls

theorem bs_next_sent {s t : State} {l : Label} (hs : next s l = some t) :
    sent t ≤ sent s + [l].count .srcPush := by
  obtain ⟨c, b, cl, p, sp, n, kp, i, m, pr, j⟩ := s
  rcases b with _ | v <;> cases l <;> simp only [next, act] at hs <;> split_ifs at hs <;>
    simp only [Option.some.injEq] at hs <;> subst hs <;> simp_all [sent, received]

theorem bs_run_sent {s t : State} {ls : List Label} (hs : run s ls = some t) :
    sent t ≤ sent s + ls.count .srcPush := by
  induction ls generalizing s with
  | nil =>
    simp only [bs_run_nil, Option.some.injEq] at hs
    simp [← hs]
  | cons l ls ih =>
    obtain ⟨u, hu, hut⟩ := bs_run_cons.mp hs
    have h1 := bs_next_sent hu
    have h2 := ih hut
    have h3 : (l :: ls).count Label.srcPush = [l].count .srcPush + ls.count .srcPush := by
      rw [← List.count_append]; rfl
    omega

theorem bs_batchRound_run (s : State) (hc : s.cancelled = false) (hb : s.buf = none)
    (hcl : s.closed = false) (hp : s.panicked = false) (hsp : s.srcPc = .poll)
    (hkp : s.snkPc = .poll) :
    ∃ t, run s batchRound = some t ∧ t.cancelled = false ∧ t.buf = none ∧ t.closed = false ∧
      t.panicked = false ∧ t.srcPc = .poll ∧ t.snkPc = .poll ∧
      t.processed.length = s.processed.length + 5 := by
  obtain ⟨c, b, cl, p, sp, n, kp, i, m, pr, j⟩ := s
  dsimp only at hc hb hcl hp hsp hkp
  subst hc hb hcl hp hsp hkp
  exact ⟨_, rfl, rfl, rfl, rfl, rfl, rfl, rfl, by simp⟩

theorem bs_rounds_run (m : Nat) :
    ∃ t, run init (rounds m) = some t ∧ t.cancelled = false ∧ t.buf = none ∧
      t.closed = false ∧ t.panicked = false ∧ t.srcPc = .poll ∧ t.snkPc = .poll ∧
      t.processed.length = 5 * m := by
  induction m with
  | zero => exact ⟨init, rfl, rfl, rfl, rfl, rfl, rfl, rfl, rfl⟩
  | succ m ih =>
    obtain ⟨u, hu, hc, hb, hcl, hp, hsp, hkp, hlen⟩ := ih
    obtain ⟨t, ht, hc2, hb2, hcl2, hp2, hsp2, hkp2, hlen2⟩ :=
      bs_batchRound_run u hc hb hcl hp hsp hkp
    refine ⟨t, ?_, hc2, hb2, hcl2, hp2, hsp2, hkp2, by omega⟩
    show run init (rounds m ++ batchRound) = some t
    exact bs_run_append.mpr ⟨u, hu, ht⟩

/-! ## The batching sink: properties -/

/-- C1 (fails on the code): in `batching_sink.go` the execution in which the
source polls, sends 0, polls again and is about to send 1 into the full buffer,
then `cancel()` is called and the sink takes its cancellation case and returns,
ends in a state where the sink has exited, the source is at `c <- n` with the
buffer full and the channel open, and no action at all is enabled; hence it is
not true that every reachable state with a running stage has an enabled
action. -/
theorem batching_sink_source_stuck :
    ∃ s, run init [.srcPoll, .srcPush, .srcPoll, .cancel, .snkPoll, .snkReturn] = some s ∧
      s.cancelled = true ∧ s.srcPc = .push ∧ s.buf = some 0 ∧ s.closed = false ∧
      s.snkPc = .done ∧ s.joined = false ∧ Stuck next s ∧
      ¬ ∀ r, Reachable r → (r.srcPc ≠ .done ∨ r.snkPc ≠ .done) → ∃ l, (next r l).isSome := by
  refine ⟨_, rfl, rfl, rfl, rfl, rfl, rfl, rfl, ?_, ?_⟩
  · intro l
    cases l <;> rfl
  · intro hall
    obtain ⟨l, hl⟩ := hall _
      ⟨[.srcPoll, .srcPush, .srcPoll, .cancel, .snkPoll, .snkReturn], rfl⟩ (Or.inl (by decide))
    cases l <;> exact absurd hl (by decide)

/-- C4 as stated fails on the code: the execution `overflowRun` of
`batching_sink.go`, made of full batches without `cancel()`, ends in a state
whose printed values are not `0, 1, ..., k-1` for any `k`: the counter wraps
around after `9223372036854775807` and the next value printed is
`-9223372036854775808`. -/
theorem order_preservation_overflow :
    ∃ s, run init overflowRun = some s ∧
      s.processed.length = 9223372036854775810 ∧
      s.processed = (List.range 9223372036854775810).map counterAt ∧
      counterAt 9223372036854775808 = -9223372036854775808 ∧
      ¬ ∃ k, s.processed = (List.range k).map Int.ofNat ∧ k ≤ overflowRun.count .srcPush := by
  obtain ⟨s, hrun, -, -, -, -, -, -, hlen⟩ := bs_rounds_run 1844674407370955162
  have hlen2 : s.processed.length = 9223372036854775810 := by omega
  obtain ⟨-, -, -, hproc, -, -, -⟩ := bs_inv_run bs_inv_init hrun
  rw [hlen2] at hproc
  refine ⟨s, hrun, hlen2, hproc, counterAt_overflow, ?_⟩
  rintro ⟨k, hk, -⟩
  have hk2 : k = 9223372036854775810 := by
    have := congrArg List.length hk
    rw [hlen2, List.length_map, List.length_range] at this
    exact this.symm
  subst hk2
  rw [hproc] at hk
  have hall := List.map_inj_left.mp hk 9223372036854775808
    (List.mem_range.mpr (by omega))
  rw [counterAt_overflow] at hall
  exact absurd hall (by decide)

/-- C4 (amended): in every state reached by an execution of `batching_sink.go`
in which the source has completed at most `9223372036854775808` sends, the
values printed by the sink are exactly `0, 1, ..., k-1` for some `k` that is at
most the number of sends the source has completed in that execution. -/
theorem order_preservation (ls : List Label) (s : State) (h : run init ls = some s)
    (hbound : ls.count .srcPush ≤ 9223372036854775808) :
    ∃ k, s.processed = (List.range k).map Int.ofNat ∧ k ≤ ls.count .srcPush := by
  obtain ⟨-, -, -, hproc, -, -, -⟩ := bs_inv_run bs_inv_init h
  have hcount := bs_run_sent h
  have hsent : s.processed.length ≤ sent s := by
    simp only [sent, received]
    omega
  have hinit : sent init = 0 := rfl
  refine ⟨s.processed.length, ?_, by omega⟩
  rw [hproc, List.length_map, List.length_range]
  refine List.map_inj_left.mpr ?_
  intro a ha
  exact counterAt_small a (by have := List.mem_range.mp ha; omega)

/-- An instance of `order_preservation`: two values sent, received and printed. -/
theorem order_preservation_witness :
    ∃ s, run init [.srcPoll, .srcPush, .snkPoll, .snkPop, .srcPoll, .srcPush, .snkWork,
        .snkPop, .snkWork] = some s ∧ s.processed = [0, 1] ∧
      ∃ k, s.processed = (List.range k).map Int.ofNat ∧
        k ≤ [Label.srcPoll, .srcPush, .snkPoll, .snkPop, .srcPoll, .srcPush, .snkWork,
          .snkPop, .snkWork].count .srcPush :=
  ⟨_, rfl, rfl, order_preservation _ _ rfl (by decide)⟩

/-- C7: with `close(c)` deleted from the source of `batching_sink.go`, the
execution in which the sink enters its batch, `cancel()` is called and the
source takes its cancellation case and returns ends in a state where the source
has exited, the sink is at its receive with the buffer empty and the channel
open, `wg.Wait()` has not returned, and no action is enabled, so that no
further action ever happens. -/
theorem no_close_hangs :
    ∃ s, runWith nextNoClose init [.snkPoll, .cancel, .srcPoll, .srcReturn] = some s ∧
      s.cancelled = true ∧ s.srcPc = .done ∧ s.snkPc = .pop ∧ s.buf = none ∧
      s.closed = false ∧ s.joined = false ∧ Stuck nextNoClose s ∧
      ∀ l ls, runWith nextNoClose s (l :: ls) = none := by
  refine ⟨_, rfl, rfl, rfl, rfl, rfl, rfl, rfl, ?_, ?_⟩
  · intro l
    cases l <;> rfl
  · intro l ls
    cases l <;> rfl

/-- C9: in every reachable state of `batching_sink.go`, if the source has
exited then `c` is closed; if the sink is at its receive with the buffer empty
and `c` open, then the source has not exited and its send, its poll or its
close is enabled; and if the sink is at its receive and `c` is closed, the
receive is enabled. -/
theorem pop_not_blocked_for_good (s : State) (h : Reachable s) :
    (s.srcPc = .done → s.closed = true) ∧
    (s.snkPc = .pop → s.buf = none → s.closed = false →
      s.srcPc ≠ .done ∧
      ((next s .srcPush).isSome ∨ (next s .srcPoll).isSome ∨ (next s .srcClose).isSome)) ∧
    (s.snkPc = .pop → s.closed = true → (next s .snkPop).isSome) := by
  obtain ⟨hp, hc, -, -, -, -, -⟩ := bs_inv_reachable h
  obtain ⟨c, b, cl, p, sp, n, kp, i, m, pr, j⟩ := s
  dsimp only at hp hc
  subst hp
  refine ⟨fun hd => hc.mpr (Or.inr hd), ?_, ?_⟩
  · intro hk hb hcl
    dsimp only at hk hb hcl
    subst hk hb hcl
    cases sp <;> simp [next, act] at hc ⊢
  · intro hk hcl
    dsimp only at hk hcl
    subst hk hcl
    cases b <;> simp [next, act]

/-- An instance of `pop_not_blocked_for_good`: the sink waits in its batch on the empty, open channel. -/
theorem pop_not_blocked_for_good_witness :
    ∃ s, run init [.snkPoll] = some s ∧ s.snkPc = .pop ∧ s.buf = none ∧ s.closed = false ∧
      s.srcPc ≠ .done ∧
      ((next s .srcPush).isSome ∨ (next s .srcPoll).isSome ∨ (next s .srcClose).isSome) :=
  ⟨_, rfl, rfl, rfl, rfl,
    (pop_not_blocked_for_good _ ⟨[.snkPoll], rfl⟩).2.1 rfl rfl rfl⟩

end BatchingSink

/-! ## The close-and-drain sink: invariant -/

namespace StuckSource

theorem ss_inv_init : Inv init := by
  simp [Inv, init]

theorem ss_inv_next {s t : State} {l : Label} (h : Inv s) (hs : next s l = some t) : Inv t := by
  obtain ⟨c, b, cl, p, sp, n, kp, m, pr, j⟩ := s
  obtain ⟨hp, hc, hcan, hx⟩ := h
  dsimp only at hp hc hcan hx
  subst hp
  rcases b with _ | v <;> cases l <;>
    simp only [next, act, Bool.false_eq_true, if_false] at hs <;> split_ifs at hs
  all_goals simp only [Option.some.injEq] at hs
  all_goals subst hs
  all_goals refine ⟨?_, ?_, ?_, ?_⟩ <;> dsimp only
  all_goals (subst_vars; simp_all)

theorem ss_run_nil (s : State) : run s [] = some s := rfl

theorem ss_run_cons {s t : State} {l : Label} {ls : List Label} :
    run s (l :: ls) = some t ↔ ∃ u, next s l = some u ∧ run u ls = some t := by
  simp only [run, runWith]
  cases next s l <;> simp

theorem ss_run_append {s t : State} {xs ys : List Label} :
    run s (xs ++ ys) = some t ↔ ∃ u, run s xs = some u ∧ run u ys = some t := by
  induction xs generalizing s with
  | nil => simp [ss_run_nil]
  | cons x xs ih =>
    simp only [List.cons_append, ss_run_cons, ih]
    constructor
    · rintro ⟨u, hu, v, hv, hvt⟩
      exact ⟨v, ⟨u, hu, hv⟩, hvt⟩
    · rintro ⟨v, ⟨u, hu, hv⟩, hvt⟩
      exact ⟨u, hu, v, hv, hvt⟩

theorem ss_inv_run {s t : State} {ls : List Label} (h : Inv s) (hs : run s ls = some t) :
    Inv t := by
  induction ls generalizing s with
  | nil =>
    simp only [ss_run_nil, Option.some.injEq] at hs
    exact hs ▸ h
  | cons l ls ih =>
    obtain ⟨u, hu, hut⟩ := ss_run_cons.mp hs
    exact ih (ss_inv_next h hu) hut

theorem ss_inv_reachable {s : State} (h : Reachable s) : Inv s := by
  obtain ⟨ls, hls⟩ := h
  exact ss_inv_run ss_inv_init hls

/-! ## The close-and-drain sink: properties -/

/-- C2: in every reachable state of `stuck_source.go` in which the source or
the sink has not exited, some action of the source or of the sink is enabled;
and whenever the source is at `c <- n` with the buffer full, the sink is at its
`select`, in its drain loop or at its work, and some sequence of sink actions
can be run from that state and empties the buffer. -/
theorem never_stuck (s : State) (h : Reachable s) :
    ((s.srcPc ≠ .done ∨ s.snkPc ≠ .done) →
      ∃ l, (l.isSrc || l.isSnk) = true ∧ (next s l).isSome) ∧
    (∀ v, s.srcPc = .push → s.buf = some v →
      (s.snkPc = .sel ∨ s.snkPc = .drain ∨ s.snkPc = .work) ∧
      ∃ ls t, (∀ l ∈ ls, Label.isSnk l = true) ∧ run s ls = some t ∧ t.buf = none) := by
  obtain ⟨hp, hc, hcan, hx⟩ := ss_inv_reachable h
  obtain ⟨c, b, cl, p, sp, n, kp, m, pr, j⟩ := s
  dsimp only at hp hc hcan hx
  subst hp
  constructor
  · intro hne
    dsimp only at hne
    cases sp
    · exact ⟨.srcPoll, rfl, by simp [next, act]⟩
    · rcases b with _ | v
      · refine ⟨.srcPush, rfl, ?_⟩
        have hcl : cl = false := by simpa using hc
        subst hcl
        simp [next, act]
      · cases kp
        · exact ⟨.snkSelRecv, rfl, by simp [next, act]⟩
        · exact ⟨.snkDrain, rfl, by simp [next, act]⟩
        · exact ⟨.snkWork, rfl, by simp [next, act]⟩
        · exact ⟨.snkReturn, rfl, by simp [next, act]⟩
        · simp at hx
    · refine ⟨.srcClose, rfl, ?_⟩
      have hcl : cl = false := by simpa using hc
      subst hcl
      simp [next, act]
    · exact ⟨.srcReturn, rfl, by simp [next, act]⟩
    · have hcl : cl = true := by simpa using hc
      subst hcl
      cases kp
      · refine ⟨.snkSelRecv, rfl, ?_⟩
        cases b <;> simp [next, act]
      · refine ⟨.snkDrain, rfl, ?_⟩
        cases b <;> simp [next, act]
      · exact ⟨.snkWork, rfl, by simp [next, act]⟩
      · exact ⟨.snkReturn, rfl, by simp [next, act]⟩
      · simp at hne
  · intro v hsp hb
    dsimp only at hsp hb
    subst hsp hb
    cases kp
    · exact ⟨Or.inl rfl, [.snkSelRecv], _, by simp [Label.isSnk], rfl, rfl⟩
    · exact ⟨Or.inr (Or.inl rfl), [.snkDrain], _, by simp [Label.isSnk], rfl, rfl⟩
    · exact ⟨Or.inr (Or.inr rfl), [.snkWork, .snkSelRecv], _, by simp [Label.isSnk], rfl, rfl⟩
    · simp at hx
    · simp at hx

/-- An instance of `never_stuck`: the source is blocked on the full buffer while the sink is in its drain loop. -/
theorem never_stuck_witness :
    ∃ s, run init [.srcPoll, .srcPush, .srcPoll, .cancel, .snkSelDone] = some s ∧
      s.srcPc = .push ∧ s.buf = some 0 ∧ s.snkPc = .drain ∧
      (∃ l, (l.isSrc || l.isSnk) = true ∧ (next s l).isSome) ∧
      ∃ ls t, (∀ l ∈ ls, Label.isSnk l = true) ∧ run s ls = some t ∧ t.buf = none :=
  ⟨_, rfl, rfl, rfl, rfl,
    (never_stuck _ ⟨[.srcPoll, .srcPush, .srcPoll, .cancel, .snkSelDone], rfl⟩).1
      (Or.inl (by decide)),
    ((never_stuck _ ⟨[.srcPoll, .srcPush, .srcPoll, .cancel, .snkSelDone], rfl⟩).2
      0 rfl rfl).2⟩

/-- C5 (fails on the code): in `stuck_source.go` the item case of the sink's
`select` is taken on a closed and empty channel and prints the zero value.
After `cancel()`, the source's poll and `close(c)`, the sink prints 0 although
the source has completed no send; and after one send of 0 has been received and
printed, the same steps print 0 a second time; hence it is not true that the
printed values are always `0, ..., k-1` with `k` at most the number of sends. -/
theorem sink_processes_zero_after_close :
    (∃ s, run init [.cancel, .srcPoll, .srcClose, .snkSelRecv, .snkWork] = some s ∧
      s.processed = [0] ∧ s.srcN = 0 ∧
      [Label.cancel, .srcPoll, .srcClose, .snkSelRecv, .snkWork].count .srcPush = 0 ∧
      ¬ ∃ k, s.processed = (List.range k).map Int.ofNat ∧ k ≤ 0) ∧
    (∃ s, run init [.srcPoll, .srcPush, .snkSelRecv, .snkWork, .cancel, .srcPoll, .srcClose,
        .snkSelRecv, .snkWork] = some s ∧
      s.processed = [0, 0] ∧ s.srcN = 1 ∧
      ¬ ∃ k, s.processed = (List.range k).map Int.ofNat) ∧
    ¬ ∀ ls s, run init ls = some s →
      ∃ k, s.processed = (List.range k).map Int.ofNat ∧ k ≤ ls.count .srcPush := by
  have hzero : ¬ ∃ k, ([0] : List Int) = (List.range k).map Int.ofNat ∧ k ≤ 0 := by
    rintro ⟨k, hk, hle⟩
    obtain rfl : k = 0 := by omega
    simp at hk
  refine ⟨⟨_, rfl, rfl, rfl, rfl, hzero⟩, ⟨_, rfl, rfl, rfl, ?_⟩, ?_⟩
  · rintro ⟨k, hk⟩
    have hlen : k = 2 := by simpa using (congrArg List.length hk).symm
    subst hlen
    exact absurd hk (by decide)
  · intro hall
    exact hzero (hall [.cancel, .srcPoll, .srcClose, .snkSelRecv, .snkWork] _ rfl)

/-- C6: in every reachable state of `stuck_source.go` in which the sink is at
its `return` or has exited, `c` is closed, the buffer is empty, the source is
past its `close(c)` and cancellation has been signalled; and the only action
that takes the sink to its `return` is a receive of the drain loop on a closed
and empty channel, the only action that makes it exit being that `return`. -/
theorem drain_completeness (s : State) (h : Reachable s) :
    ((s.snkPc = .ret ∨ s.snkPc = .done) →
      s.closed = true ∧ s.buf = none ∧ (s.srcPc = .ret ∨ s.srcPc = .done) ∧
      s.cancelled = true) ∧
    (∀ l t, next s l = some t → s.snkPc ≠ .ret → t.snkPc = .ret →
      l = .snkDrain ∧ s.snkPc = .drain ∧ s.closed = true ∧ s.buf = none) ∧
    (∀ l t, next s l = some t → s.snkPc ≠ .done → t.snkPc = .done →
      l = .snkReturn ∧ s.snkPc = .ret) := by
  obtain ⟨hp, hc, hcan, hx⟩ := ss_inv_reachable h
  refine ⟨?_, ?_, ?_⟩
  · intro hk
    obtain ⟨hcl, hb⟩ := hx hk
    exact ⟨hcl, hb, hc.mp hcl, hcan (Or.inr (hc.mp hcl))⟩
  · intro l t hs hne ht
    obtain ⟨c, b, cl, p, sp, n, kp, m, pr, j⟩ := s
    dsimp only at hne
    rcases b with _ | v <;> cases l <;> simp only [next, act] at hs <;> split_ifs at hs <;>
      simp only [Option.some.injEq] at hs <;> subst hs <;> simp_all
  · intro l t hs hne ht
    obtain ⟨c, b, cl, p, sp, n, kp, m, pr, j⟩ := s
    dsimp only at hne
    rcases b with _ | v <;> cases l <;> simp only [next, act] at hs <;> split_ifs at hs <;>
      simp only [Option.some.injEq] at hs <;> subst hs <;> simp_all

/-- An instance of `drain_completeness`: a shutdown in which the sink drains and exits. -/
theorem drain_completeness_witness :
    ∃ s, run init [.cancel, .srcPoll, .snkSelDone, .srcClose, .snkDrain, .snkReturn] = some s ∧
      s.snkPc = .done ∧ s.closed = true ∧ s.buf = none ∧ (s.srcPc = .ret ∨ s.srcPc = .done) ∧
      s.cancelled = true :=
  ⟨_, rfl, rfl,
    (drain_completeness _
      ⟨[.cancel, .srcPoll, .snkSelDone, .srcClose, .snkDrain, .snkReturn], rfl⟩).1
      (Or.inr rfl)⟩

/-- C8: with the drain loop deleted from the sink of `stuck_source.go`, the
execution in which the source polls, sends 0, polls again and is about to send
1 into the full buffer, then `cancel()` is called and the sink takes its
cancellation case and returns, ends in a state where the sink has exited, the
buffer is full, `c` is open, the source is at `c <- n`, `wg.Wait()` has not
returned, and no action is enabled, so that no further action ever happens. -/
theorem no_drain_hangs :
    ∃ s, runWith nextNoDrain init
        [.srcPoll, .srcPush, .srcPoll, .cancel, .snkSelDone, .snkReturn] = some s ∧
      s.cancelled = true ∧ s.snkPc = .done ∧ s.buf = some 0 ∧ s.closed = false ∧
      s.srcPc = .push ∧ s.joined = false ∧ Stuck nextNoDrain s ∧
      ∀ l ls, runWith nextNoDrain s (l :: ls) = none := by
  refine ⟨_, rfl, rfl, rfl, rfl, rfl, rfl, rfl, ?_, ?_⟩
  · intro l
    cases l <;> rfl
  · intro l ls
    cases l <;> rfl

end StuckSource

/-! ## The source goroutine -/

theorem initial_segment_of_pair {α : Type} (f r : List α) (a b : α) (h : f ++ r = [a, b]) :
    f = [] ∨ f = [a] ∨ f = [a, b] := by
  rcases f with _ | ⟨x, _ | ⟨y, _ | ⟨z, f⟩⟩⟩ <;> simp_all

/-! ## The source of `batching_sink.go` -/

namespace BatchingSink

theorem bs_next_closeCredit {s t : State} {l : Label} (hs : next s l = some t) :
    [l].count .srcClose + closeCredit t ≤ closeCredit s := by
  obtain ⟨c, b, cl, p, sp, n, kp, i, m, pr, j⟩ := s
  rcases b with _ | v <;> cases l <;> simp only [next, act] at hs <;> split_ifs at hs <;>
    simp only [Option.some.injEq] at hs <;> subst hs <;> simp_all [closeCredit]

theorem bs_run_closeCredit {s t : State} {ls : List Label} (hs : run s ls = some t) :
    ls.count .srcClose + closeCredit t ≤ closeCredit s := by
  induction ls generalizing s with
  | nil =>
    simp only [bs_run_nil, Option.some.injEq] at hs
    simp [← hs]
  | cons l ls ih =>
    obtain ⟨u, hu, hut⟩ := bs_run_cons.mp hs
    have h1 := bs_next_closeCredit hu
    have h2 := ih hut
    have h3 : (l :: ls).count Label.srcClose = [l].count .srcClose + ls.count .srcClose := by
      rw [← List.count_append]; rfl
    omega

theorem bs_next_pushCredit {s t : State} {l : Label} (hc : s.cancelled = true)
    (hs : next s l = some t) :
    t.cancelled = true ∧ [l].count .srcPush + pushCredit t ≤ pushCredit s := by
  obtain ⟨c, b, cl, p, sp, n, kp, i, m, pr, j⟩ := s
  dsimp only at hc
  subst hc
  rcases b with _ | v <;> cases l <;> simp only [next, act] at hs <;> split_ifs at hs <;>
    simp only [Option.some.injEq] at hs <;> subst hs <;> simp_all [pushCredit]

theorem bs_run_pushCredit {s t : State} {ls : List Label} (hc : s.cancelled = true)
    (hs : run s ls = some t) :
    t.cancelled = true ∧ ls.count .srcPush + pushCredit t ≤ pushCredit s := by
  induction ls generalizing s with
  | nil =>
    simp only [bs_run_nil, Option.some.injEq] at hs
    subst hs
    exact ⟨hc, by simp⟩
  | cons l ls ih =>
    obtain ⟨u, hu, hut⟩ := bs_run_cons.mp hs
    obtain ⟨hcu, h1⟩ := bs_next_pushCredit hc hu
    obtain ⟨hct, h2⟩ := ih hcu hut
    have h3 : (l :: ls).count Label.srcPush = [l].count .srcPush + ls.count .srcPush := by
      rw [← List.count_append]; rfl
    exact ⟨hct, by omega⟩

theorem bs_next_srcTail {s t : State} {l : Label} (hi : Inv s) (hpp : PastPoll s)
    (hs : next s l = some t) :
    PastPoll t ∧ [l].filter Label.isSrc ++ srcTail t.srcPc = srcTail s.srcPc := by
  have hc := hi.2.1
  obtain ⟨c, b, cl, p, sp, n, kp, i, m, pr, j⟩ := s
  dsimp only [PastPoll] at hc hpp
  rcases b with _ | v <;> cases l <;> simp only [next, act] at hs <;> split_ifs at hs <;>
    simp only [Option.some.injEq] at hs <;> subst hs <;>
    simp_all [PastPoll, srcTail, Label.isSrc]

theorem bs_run_srcTail {s t : State} {ls : List Label} (hi : Inv s) (hpp : PastPoll s)
    (hs : run s ls = some t) :
    ls.filter Label.isSrc ++ srcTail t.srcPc = srcTail s.srcPc := by
  induction ls generalizing s with
  | nil =>
    simp only [bs_run_nil, Option.some.injEq] at hs
    simp [← hs]
  | cons l ls ih =>
    obtain ⟨u, hu, hut⟩ := bs_run_cons.mp hs
    obtain ⟨hpu, h1⟩ := bs_next_srcTail hi hpp hu
    have h2 := ih (bs_inv_next hi hu) hpu hut
    have h3 : (l :: ls).filter Label.isSrc = [l].filter Label.isSrc ++ ls.filter Label.isSrc := by
      rw [← List.filter_append]; rfl
    rw [h3, List.append_assoc, h2, h1]

theorem bs_poll_after_cancel {s t : State} (hpan : s.panicked = false)
    (hc : s.cancelled = true) (hs : next s .srcPoll = some t) :
    t.srcPc = .close ∧ t.cancelled = true := by
  obtain ⟨c, b, cl, p, sp, n, kp, i, m, pr, j⟩ := s
  dsimp only at hc hpan
  subst hc hpan
  simp only [next, act] at hs
  split_ifs at hs
  all_goals simp only [Option.some.injEq] at hs
  all_goals subst hs
  all_goals simp

theorem bs_cancel_step {s t : State} (hs : next s .cancel = some t) :
    t.cancelled = true ∧ t.srcPc = s.srcPc ∧ t.panicked = false := by
  obtain ⟨c, b, cl, p, sp, n, kp, i, m, pr, j⟩ := s
  simp only [next, act] at hs
  split_ifs at hs
  all_goals simp only [Option.some.injEq] at hs
  all_goals subst hs
  all_goals simp_all

theorem bs_next_at_push {s t : State} {l : Label} (hi : Inv s) (hs : next s l = some t)
    (hp : t.srcPc = .push) :
    l = .srcPoll ∨ (Label.isSrc l = false ∧ s.srcPc = .push) := by
  have hc := hi.2.1
  obtain ⟨c, b, cl, p, sp, n, kp, i, m, pr, j⟩ := s
  dsimp only at hc
  rcases b with _ | v <;> cases l <;> simp only [next, act] at hs <;> split_ifs at hs <;>
    simp only [Option.some.injEq] at hs <;> subst hs <;> simp_all [Label.isSrc]

theorem bs_last_src_poll (ls : List Label) (s : State) (h : run init ls = some s)
    (hp : s.srcPc = .push) : (ls.filter Label.isSrc).getLast? = some .srcPoll := by
  induction ls using List.reverseRecOn generalizing s with
  | nil =>
    simp only [bs_run_nil, Option.some.injEq] at h
    subst h
    simp [init] at hp
  | append_singleton xs x ih =>
    obtain ⟨u, hu, hux⟩ := bs_run_append.mp h
    obtain ⟨w, hw, hws⟩ := bs_run_cons.mp hux
    simp only [bs_run_nil, Option.some.injEq] at hws
    subst hws
    rcases bs_next_at_push (bs_inv_run bs_inv_init hu) hw hp with hx | ⟨hx, hup⟩
    · subst hx
      simp [List.filter_append, Label.isSrc]
    · rw [List.filter_append]
      simp only [List.filter_cons, hx, List.filter_nil, Bool.false_eq_true, if_false,
        List.append_nil]
      exact ih u hu hup

/-- No send after close, and at most one close, along the executions of
`batching_sink.go`. -/
theorem bs_no_push_after_close (ls : List Label) (s : State) (h : run init ls = some s) :
    s.panicked = false ∧ ls.count .srcClose ≤ 1 ∧
    (s.closed = true →
      (s.srcPc = .ret ∨ s.srcPc = .done) ∧ next s .srcPush = none ∧
      next s .srcClose = none) := by
  have hi := bs_inv_run bs_inv_init h
  have hcount := bs_run_closeCredit h
  refine ⟨hi.1, ?_, ?_⟩
  · have : closeCredit init = 1 := rfl
    omega
  · intro hcl
    have hpc := hi.2.1.mp hcl
    refine ⟨hpc, ?_, ?_⟩
    · rcases hpc with hpc | hpc <;> simp [next, act, hpc]
    · rcases hpc with hpc | hpc <;> simp [next, act, hpc]

/-- After `cancel()` the source completes at most one send, along the
executions of `batching_sink.go`. -/
theorem bs_push_after_cancel (pre post : List Label) (s0 s1 s : State)
    (h0 : run init pre = some s0) (h1 : next s0 .cancel = some s1)
    (h2 : run s1 post = some s) :
    post.count .srcPush ≤ 1 ∧
    (post.count .srcPush = 1 →
      s0.srcPc = .push ∧ (pre.filter Label.isSrc).getLast? = some .srcPoll) ∧
    ∀ p1 p2, post = p1 ++ .srcPoll :: p2 →
      (∃ u, run s1 (p1 ++ [.srcPoll]) = some u ∧ u.srcPc = .close) ∧
      p2.count .srcPush = 0 ∧
      (p2.filter Label.isSrc = [] ∨ p2.filter Label.isSrc = [.srcClose] ∨
        p2.filter Label.isSrc = [.srcClose, .srcReturn]) := by
  have hi0 := bs_inv_run bs_inv_init h0
  have hi1 := bs_inv_next hi0 h1
  obtain ⟨hc1, hpc1, -⟩ := bs_cancel_step h1
  obtain ⟨-, hcred⟩ := bs_run_pushCredit hc1 h2
  have hle : pushCredit s1 ≤ 1 := by
    unfold pushCredit
    split_ifs <;> omega
  refine ⟨by omega, ?_, ?_⟩
  · intro hone
    have hpos : pushCredit s1 = 1 := by omega
    unfold pushCredit at hpos
    split_ifs at hpos with hcond
    have hpush : s0.srcPc = .push := by
      rw [← hpc1]
      exact hcond.2
    exact ⟨hpush, bs_last_src_poll pre s0 h0 hpush⟩
  · intro p1 p2 hpost
    subst hpost
    obtain ⟨u, hu, hrest⟩ := bs_run_append.mp h2
    obtain ⟨w, hw, hwt⟩ := bs_run_cons.mp hrest
    have hiu := bs_inv_run hi1 hu
    obtain ⟨hcu, -⟩ := bs_run_pushCredit hc1 hu
    obtain ⟨hwpc, hwc⟩ := bs_poll_after_cancel hiu.1 hcu hw
    have hiw := bs_inv_next hiu hw
    refine ⟨⟨w, ?_, hwpc⟩, ?_, ?_⟩
    · exact bs_run_append.mpr ⟨u, hu, bs_run_cons.mpr ⟨w, hw, bs_run_nil w⟩⟩
    · obtain ⟨-, hcw⟩ := bs_run_pushCredit hwc hwt
      have : pushCredit w = 0 := by simp [pushCredit, hwpc]
      omega
    · have htail := bs_run_srcTail hiw (Or.inl hwpc) hwt
      rw [hwpc] at htail
      exact initial_segment_of_pair _ _ _ _ htail

end BatchingSink

/-! ## The source of `stuck_source.go` -/

namespace StuckSource

theorem ss_next_closeCredit {s t : State} {l : Label} (hs : next s l = some t) :
    [l].count .srcClose + closeCredit t ≤ closeCredit s := by
  obtain ⟨c, b, cl, p, sp, n, kp, m, pr, j⟩ := s
  rcases b with _ | v <;> cases l <;> simp only [next, act] at hs <;> split_ifs at hs <;>
    simp only [Option.some.injEq] at hs <;> subst hs <;> simp_all [closeCredit]

theorem ss_run_closeCredit {s t : State} {ls : List Label} (hs : run s ls = some t) :
    ls.count .srcClose + closeCredit t ≤ closeCredit s := by
  induction ls generalizing s with
  | nil =>
    simp only [ss_run_nil, Option.some.injEq] at hs
    simp [← hs]
  | cons l ls ih =>
    obtain ⟨u, hu, hut⟩ := ss_run_cons.mp hs
    have h1 := ss_next_closeCredit hu
    have h2 := ih hut
    have h3 : (l :: ls).count Label.srcClose = [l].count .srcClose + ls.count .srcClose := by
      rw [← List.count_append]; rfl
    omega

theorem ss_next_pushCredit {s t : State} {l : Label} (hc : s.cancelled = true)
    (hs : next s l = some t) :
    t.cancelled = true ∧ [l].count .srcPush + pushCredit t ≤ pushCredit s := by
  obtain ⟨c, b, cl, p, sp, n, kp, m, pr, j⟩ := s
  dsimp only at hc
  subst hc
  rcases b with _ | v <;> cases l <;> simp only [next, act] at hs <;> split_ifs at hs <;>
    simp only [Option.some.injEq] at hs <;> subst hs <;> simp_all [pushCredit]

theorem ss_run_pushCredit {s t : State} {ls : List Label} (hc : s.cancelled = true)
    (hs : run s ls = some t) :
    t.cancelled = true ∧ ls.count .srcPush + pushCredit t ≤ pushCredit s := by
  induction ls generalizing s with
  | nil =>
    simp only [ss_run_nil, Option.some.injEq] at hs
    subst hs
    exact ⟨hc, by simp⟩
  | cons l ls ih =>
    obtain ⟨u, hu, hut⟩ := ss_run_cons.mp hs
    obtain ⟨hcu, h1⟩ := ss_next_pushCredit hc hu
    obtain ⟨hct, h2⟩ := ih hcu hut
    have h3 : (l :: ls).count Label.srcPush = [l].count .srcPush + ls.count .srcPush := by
      rw [← List.count_append]; rfl
    exact ⟨hct, by omega⟩

theorem ss_next_srcTail {s t : State} {l : Label} (hi : Inv s) (hpp : PastPoll s)
    (hs : next s l = some t) :
    PastPoll t ∧ [l].filter Label.isSrc ++ srcTail t.srcPc = srcTail s.srcPc := by
  have hc := hi.2.1
  obtain ⟨c, b, cl, p, sp, n, kp, m, pr, j⟩ := s
  dsimp only [PastPoll] at hc hpp
  rcases b with _ | v <;> cases l <;> simp only [next, act] at hs <;> split_ifs at hs <;>
    simp only [Option.some.injEq] at hs <;> subst hs <;>
    simp_all [PastPoll, srcTail, Label.isSrc]

theorem ss_run_srcTail {s t : State} {ls : List Label} (hi : Inv s) (hpp : PastPoll s)
    (hs : run s ls = some t) :
    ls.filter Label.isSrc ++ srcTail t.srcPc = srcTail s.srcPc := by
  induction ls generalizing s with
  | nil =>
    simp only [ss_run_nil, Option.some.injEq] at hs
    simp [← hs]
  | cons l ls ih =>
    obtain ⟨u, hu, hut⟩ := ss_run_cons.mp hs
    obtain ⟨hpu, h1⟩ := ss_next_srcTail hi hpp hu
    have h2 := ih (ss_inv_next hi hu) hpu hut
    have h3 : (l :: ls).filter Label.isSrc = [l].filter Label.isSrc ++ ls.filter Label.isSrc := by
      rw [← List.filter_append]; rfl
    rw [h3, List.append_assoc, h2, h1]

theorem ss_poll_after_cancel {s t : State} (hpan : s.panicked = false)
    (hc : s.cancelled = true) (hs : next s .srcPoll = some t) :
    t.srcPc = .close ∧ t.cancelled = true := by
  obtain ⟨c, b, cl, p, sp, n, kp, m, pr, j⟩ := s
  dsimp only at hc hpan
  subst hc hpan
  simp only [next, act] at hs
  split_ifs at hs
  all_goals simp only [Option.some.injEq] at hs
  all_goals subst hs
  all_goals simp

theorem ss_cancel_step {s t : State} (hs : next s .cancel = some t) :
    t.cancelled = true ∧ t.srcPc = s.srcPc ∧ t.panicked = false := by
  obtain ⟨c, b, cl, p, sp, n, kp, m, pr, j⟩ := s
  simp only [next, act] at hs
  split_ifs at hs
  all_goals simp only [Option.some.injEq] at hs
  all_goals subst hs
  all_goals simp_all

theorem ss_next_at_push {s t : State} {l : Label} (hi : Inv s) (hs : next s l = some t)
    (hp : t.srcPc = .push) :
    l = .srcPoll ∨ (Label.isSrc l = false ∧ s.srcPc = .push) := by
  have hc := hi.2.1
  obtain ⟨c, b, cl, p, sp, n, kp, m, pr, j⟩ := s
  dsimp only at hc
  rcases b with _ | v <;> cases l <;> simp only [next, act] at hs <;> split_ifs at hs <;>
    simp only [Option.some.injEq] at hs <;> subst hs <;> simp_all [Label.isSrc]

theorem ss_last_src_poll (ls : List Label) (s : State) (h : run init ls = some s)
    (hp : s.srcPc = .push) : (ls.filter Label.isSrc).getLast? = some .srcPoll := by
  induction ls using List.reverseRecOn generalizing s with
  | nil =>
    simp only [ss_run_nil, Option.some.injEq] at h
    subst h
    simp [init] at hp
  | append_singleton xs x ih =>
    obtain ⟨u, hu, hux⟩ := ss_run_append.mp h
    obtain ⟨w, hw, hws⟩ := ss_run_cons.mp hux
    simp only [ss_run_nil, Option.some.injEq] at hws
    subst hws
    rcases ss_next_at_push (ss_inv_run ss_inv_init hu) hw hp with hx | ⟨hx, hup⟩
    · subst hx
      simp [List.filter_append, Label.isSrc]
    · rw [List.filter_append]
      simp only [List.filter_cons, hx, List.filter_nil, Bool.false_eq_true, if_false,
        List.append_nil]
      exact ih u hu hup

/-- No send after close, and at most one close, along the executions of
`stuck_source.go`. -/
theorem ss_no_push_after_close (ls : List Label) (s : State) (h : run init ls = some s) :
    s.panicked = false ∧ ls.count .srcClose ≤ 1 ∧
    (s.closed = true →
      (s.srcPc = .ret ∨ s.srcPc = .done) ∧ next s .srcPush = none ∧
      next s .srcClose = none) := by
  have hi := ss_inv_run ss_inv_init h
  have hcount := ss_run_closeCredit h
  refine ⟨hi.1, ?_, ?_⟩
  · have : closeCredit init = 1 := rfl
    omega
  · intro hcl
    have hpc := hi.2.1.mp hcl
    refine ⟨hpc, ?_, ?_⟩
    · rcases hpc with hpc | hpc <;> simp [next, act, hpc]
    · rcases hpc with hpc | hpc <;> simp [next, act, hpc]

/-- After `cancel()` the source completes at most one send, along the
executions of `stuck_source.go`. -/
theorem ss_push_after_cancel (pre post : List Label) (s0 s1 s : State)
    (h0 : run init pre = some s0) (h1 : next s0 .cancel = some s1)
    (h2 : run s1 post = some s) :
    post.count .srcPush ≤ 1 ∧
    (post.count .srcPush = 1 →
      s0.srcPc = .push ∧ (pre.filter Label.isSrc).getLast? = some .srcPoll) ∧
    ∀ p1 p2, post = p1 ++ .srcPoll :: p2 →
      (∃ u, run s1 (p1 ++ [.srcPoll]) = some u ∧ u.srcPc = .close) ∧
      p2.count .srcPush = 0 ∧
      (p2.filter Label.isSrc = [] ∨ p2.filter Label.isSrc = [.srcClose] ∨
        p2.filter Label.isSrc = [.srcClose, .srcReturn]) := by
  have hi0 := ss_inv_run ss_inv_init h0
  have hi1 := ss_inv_next hi0 h1
  obtain ⟨hc1, hpc1, -⟩ := ss_cancel_step h1
  obtain ⟨-, hcred⟩ := ss_run_pushCredit hc1 h2
  have hle : pushCredit s1 ≤ 1 := by
    unfold pushCredit
    split_ifs <;> omega
  refine ⟨by omega, ?_, ?_⟩
  · intro hone
    have hpos : pushCredit s1 = 1 := by omega
    unfold pushCredit at hpos
    split_ifs at hpos with hcond
    have hpush : s0.srcPc = .push := by
      rw [← hpc1]
      exact hcond.2
    exact ⟨hpush, ss_last_src_poll pre s0 h0 hpush⟩
  · intro p1 p2 hpost
    subst hpost
    obtain ⟨u, hu, hrest⟩ := ss_run_append.mp h2
    obtain ⟨w, hw, hwt⟩ := ss_run_cons.mp hrest
    have hiu := ss_inv_run hi1 hu
    obtain ⟨hcu, -⟩ := ss_run_pushCredit hc1 hu
    obtain ⟨hwpc, hwc⟩ := ss_poll_after_cancel hiu.1 hcu hw
    have hiw := ss_inv_next hiu hw
    refine ⟨⟨w, ?_, hwpc⟩, ?_, ?_⟩
    · exact ss_run_append.mpr ⟨u, hu, ss_run_cons.mpr ⟨w, hw, ss_run_nil w⟩⟩
    · obtain ⟨-, hcw⟩ := ss_run_pushCredit hwc hwt
      have : pushCredit w = 0 := by simp [pushCredit, hwpc]
      omega
    · have htail := ss_run_srcTail hiw (Or.inl hwpc) hwt
      rw [hwpc] at htail
      exact initial_segment_of_pair _ _ _ _ htail

end StuckSource

/-! ## Properties of the source in both programs -/

/-- C3: in both programs, every execution from the initial state ends in a
state that has not panicked and contains at most one `close(c)`; and in every
reachable state in which `c` is closed, the source is at its `return` or has
exited, and neither its send nor its close is enabled. -/
theorem no_push_after_close :
    (∀ (ls : List BatchingSink.Label) (s : BatchingSink.State),
      BatchingSink.run BatchingSink.init ls = some s →
        s.panicked = false ∧ ls.count .srcClose ≤ 1 ∧
        (s.closed = true →
          (s.srcPc = .ret ∨ s.srcPc = .done) ∧ BatchingSink.next s .srcPush = none ∧
          BatchingSink.next s .srcClose = none)) ∧
    (∀ (ls : List StuckSource.Label) (s : StuckSource.State),
      StuckSource.run StuckSource.init ls = some s →
        s.panicked = false ∧ ls.count .srcClose ≤ 1 ∧
        (s.closed = true →
          (s.srcPc = .ret ∨ s.srcPc = .done) ∧ StuckSource.next s .srcPush = none ∧
          StuckSource.next s .srcClose = none)) :=
  ⟨BatchingSink.bs_no_push_after_close, StuckSource.ss_no_push_after_close⟩

/-- An instance of `no_push_after_close` in each program: the state right after `close(c)`. -/
theorem no_push_after_close_witness :
    (∃ s, BatchingSink.run BatchingSink.init [.cancel, .srcPoll, .srcClose] = some s ∧
      s.closed = true ∧ (s.srcPc = .ret ∨ s.srcPc = .done) ∧
      BatchingSink.next s .srcPush = none ∧ BatchingSink.next s .srcClose = none) ∧
    (∃ s, StuckSource.run StuckSource.init [.cancel, .srcPoll, .srcClose] = some s ∧
      s.closed = true ∧ (s.srcPc = .ret ∨ s.srcPc = .done) ∧
      StuckSource.next s .srcPush = none ∧ StuckSource.next s .srcClose = none) :=
  ⟨⟨_, rfl, rfl, (no_push_after_close.1 [.cancel, .srcPoll, .srcClose] _ rfl).2.2 rfl⟩,
   ⟨_, rfl, rfl, (no_push_after_close.2 [.cancel, .srcPoll, .srcClose] _ rfl).2.2 rfl⟩⟩

/-- C10: in both programs, for every execution split at its `cancel()` step,
the steps after it contain at most one send of the source; if they contain one,
the source was already at `c <- n` when `cancel()` was called, its last action
before `cancel()` being a poll; and every poll
of the source taken after `cancel()` leads to `close(c)`, is followed by no
send, and is followed by no source action other than the close and then the
return. -/
theorem push_after_cancel :
    (∀ (pre post : List BatchingSink.Label) (s0 s1 s : BatchingSink.State),
      BatchingSink.run BatchingSink.init pre = some s0 →
      BatchingSink.next s0 .cancel = some s1 →
      BatchingSink.run s1 post = some s →
        post.count .srcPush ≤ 1 ∧
        (post.count .srcPush = 1 →
          s0.srcPc = .push ∧
          (pre.filter BatchingSink.Label.isSrc).getLast? = some .srcPoll) ∧
        ∀ p1 p2, post = p1 ++ .srcPoll :: p2 →
          (∃ u, BatchingSink.run s1 (p1 ++ [.srcPoll]) = some u ∧ u.srcPc = .close) ∧
          p2.count .srcPush = 0 ∧
          (p2.filter BatchingSink.Label.isSrc = [] ∨
            p2.filter BatchingSink.Label.isSrc = [.srcClose] ∨
            p2.filter BatchingSink.Label.isSrc = [.srcClose, .srcReturn])) ∧
    (∀ (pre post : List StuckSource.Label) (s0 s1 s : StuckSource.State),
      StuckSource.run StuckSource.init pre = some s0 →
      StuckSource.next s0 .cancel = some s1 →
      StuckSource.run s1 post = some s →
        post.count .srcPush ≤ 1 ∧
        (post.count .srcPush = 1 →
          s0.srcPc = .push ∧
          (pre.filter StuckSource.Label.isSrc).getLast? = some .srcPoll) ∧
        ∀ p1 p2, post = p1 ++ .srcPoll :: p2 →
          (∃ u, StuckSource.run s1 (p1 ++ [.srcPoll]) = some u ∧ u.srcPc = .close) ∧
          p2.count .srcPush = 0 ∧
          (p2.filter StuckSource.Label.isSrc = [] ∨
            p2.filter StuckSource.Label.isSrc = [.srcClose] ∨
            p2.filter StuckSource.Label.isSrc = [.srcClose, .srcReturn])) :=
  ⟨BatchingSink.bs_push_after_cancel, StuckSource.ss_push_after_cancel⟩

/-- An instance of `push_after_cancel` in each program: `cancel()` is called while the source is at its send, which then completes. -/
theorem push_after_cancel_witness :
    (∃ s0 s1 s,
      BatchingSink.run BatchingSink.init [.srcPoll, .srcPush, .snkPoll, .snkPop, .srcPoll]
        = some s0 ∧
      BatchingSink.next s0 .cancel = some s1 ∧
      BatchingSink.run s1 [.srcPush, .srcPoll, .srcClose, .srcReturn] = some s ∧
      [BatchingSink.Label.srcPush, .srcPoll, .srcClose, .srcReturn].count .srcPush = 1 ∧
      (s0.srcPc = .push ∧
        ([BatchingSink.Label.srcPoll, .srcPush, .snkPoll, .snkPop, .srcPoll].filter
          BatchingSink.Label.isSrc).getLast? = some .srcPoll) ∧
      [BatchingSink.Label.srcClose, .srcReturn].count .srcPush = 0) ∧
    (∃ s0 s1 s,
      StuckSource.run StuckSource.init [.srcPoll, .srcPush, .snkSelRecv, .srcPoll] = some s0 ∧
      StuckSource.next s0 .cancel = some s1 ∧
      StuckSource.run s1 [.srcPush, .srcPoll, .srcClose, .srcReturn] = some s ∧
      [StuckSource.Label.srcPush, .srcPoll, .srcClose, .srcReturn].count .srcPush = 1 ∧
      (s0.srcPc = .push ∧
        ([StuckSource.Label.srcPoll, .srcPush, .snkSelRecv, .srcPoll].filter
          StuckSource.Label.isSrc).getLast? = some .srcPoll) ∧
      [StuckSource.Label.srcClose, .srcReturn].count .srcPush = 0) :=
  ⟨⟨_, _, _, rfl, rfl, rfl, rfl,
      (push_after_cancel.1 [.srcPoll, .srcPush, .snkPoll, .snkPop, .srcPoll]
        [.srcPush, .srcPoll, .srcClose, .srcReturn] _ _ _ rfl rfl rfl).2.1 rfl,
      ((push_after_cancel.1 [.srcPoll, .srcPush, .snkPoll, .snkPop, .srcPoll]
        [.srcPush, .srcPoll, .srcClose, .srcReturn] _ _ _ rfl rfl rfl).2.2
        [.srcPush] [.srcClose, .srcReturn] rfl).2.1⟩,
   ⟨_, _, _, rfl, rfl, rfl, rfl,
      (push_after_cancel.2 [.srcPoll, .srcPush, .snkSelRecv, .srcPoll]
        [.srcPush, .srcPoll, .srcClose, .srcReturn] _ _ _ rfl rfl rfl).2.1 rfl,
      ((push_after_cancel.2 [.srcPoll, .srcPush, .snkSelRecv, .srcPoll]
        [.srcPush, .srcPoll, .srcClose, .srcReturn] _ _ _ rfl rfl rfl).2.2
        [.srcPush] [.srcClose, .srcReturn] rfl).2.1⟩⟩
